import Mathlib

/-!
Verification development for the `rust-playground` repository.

The development shallowly embeds the parts of the repository that the
specification talks about:

* the worker pool of `src/server/src/lib.rs` (`mod thread_pool`), as a
  labelled transition system on an explicit pool state with ghost history
  variables (submitted / delivered / executed task identifiers);
* the HTTP route resolver `response`, the response serialization of
  `handle_connection`, and the byte-level request parsing `parse_request`
  of `src/server/src/web_server.rs`;
* the memoizing `Cacher` of `src/cacher/src/lib.rs`.

Rust panics (failed `unwrap`, `unreachable!`) are modelled as distinguished
outcome values of the embedded functions; machine bytes are modelled as
`Nat` values below 256.
-/

/-! ## Generic counting over lists -/
/-- Counts the elements of a list satisfying a boolean predicate. -/
def cntP {α : Type} (p : α → Bool) : List α → Nat
  | [] => 0
  | a :: l => (if p a then 1 else 0) + cntP p l

/-- Counts occurrences of a value in a list of naturals. -/
def cntNat (i : Nat) (l : List Nat) : Nat := cntP (fun x => x == i) l

/-! ## Association lists (model of `HashMap` lookup) -/
/-- Looks up a key in an association list; models `HashMap::get` (the maps in
the repository have unique keys). -/
def assocFind {U V : Type} [DecidableEq U] (m : List (U × V)) (k : U) : Option V :=
  match m with
  | [] => none
  | kv :: rest => if kv.fst = k then some kv.snd else assocFind rest k

/-! ## HTTP data model (the fragment of the `http` crate used by the server) -/
/-- Byte strings of a Lean string (ASCII inputs only are used). -/
def strBytes (s : String) : List Nat := s.toList.map Char.toNat

/-- Renders a byte list back as a string. -/
def stringOfBytes (bs : List Nat) : String := String.mk (bs.map Char.ofNat)

/-- Model of `http::Method`: the nine standard methods plus extension
methods (arbitrary valid token byte strings), as in the `http` crate. -/
inductive Method where
  | GET | POST | PUT | DELETE | HEAD | OPTIONS | CONNECT | PATCH | TRACE
  | ext (bytes : List Nat)
deriving DecidableEq

/-- Display of a method (the `{}` format of `http::Method`). -/
def methodStr : Method → String
  | Method.GET => "GET"
  | Method.POST => "POST"
  | Method.PUT => "PUT"
  | Method.DELETE => "DELETE"
  | Method.HEAD => "HEAD"
  | Method.OPTIONS => "OPTIONS"
  | Method.CONNECT => "CONNECT"
  | Method.PATCH => "PATCH"
  | Method.TRACE => "TRACE"
  | Method.ext bs => stringOfBytes bs

/-- Model of `http::Version` (the five values the server recognizes). -/
inductive Version where
  | http09 | http10 | http11 | http2 | http3
deriving DecidableEq

/-- Debug rendering of a version (the `{:?}` format of `http::Version`). -/
def versionDebug : Version → String
  | Version.http09 => "HTTP/0.9"
  | Version.http10 => "HTTP/1.0"
  | Version.http11 => "HTTP/1.1"
  | Version.http2 => "HTTP/2.0"
  | Version.http3 => "HTTP/3.0"

/-- Display rendering of a status code (the `{}` format of
`http::StatusCode`: code, space, canonical reason).  Only 200, 404, 501 and
405 are ever produced by the server. -/
def statusDisplay (c : Nat) : String :=
  if c = 200 then "200 OK"
  else if c = 404 then "404 Not Found"
  else if c = 501 then "501 Not Implemented"
  else if c = 405 then "405 Method Not Allowed"
  else toString c ++ " <unknown status code>"

/-- Model of the `http::Request` values this server builds and consumes.
`uri` models `http::Uri` by its path component, the only accessor the
server applies to it (`request.uri().path()`). -/
structure Request where
  method : Method
  uri : String
  version : Version
  headers : List (List Nat × List Nat)
  body : List Nat
deriving DecidableEq

/-- Model of `http::Response<String>` as built by `response`:
`Response::builder()` defaults the version to HTTP/1.1 and the server sets
only status and body. -/
structure Response where
  version : Version
  status : Nat
  body : String
deriving DecidableEq

/-- The response value produced by `Response::builder().status(s).body(b)`
(version left at its HTTP/1.1 default). -/
def Response.build (status : Nat) (body : String) : Response :=
  { version := Version.http11, status := status, body := body }

/-! ## Route resolver (`response`, src/server/src/web_server.rs lines 157-183) -/
/-- The file system seen by `fs::read_to_string`: maps a file name to its
contents, `none` meaning the file is missing or unreadable. -/
def Fs : Type := String → Option String

/-- The route table: URL path to file path (`type Routes = HashMap<String, String>`). -/
def Routes : Type := List (String × String)

/-- Model of `routes.read().unwrap().get(path)`.  The `RwLock` is read-only
after construction, so the lock itself is invisible to the model. -/
def routesGet (routes : Routes) (p : String) : Option String :=
  assocFind routes p

/-- Outcome of calling `response`: either an `http::Result` that is `Ok`
(the builder never fails on the inputs the server uses), or a panic raised
by `fs::read_to_string(...).unwrap()` on a missing file. -/
inductive RespResult where
  | ok (r : Response)
  | panicMissingFile (file : String)
deriving DecidableEq

/-- The route resolver `response` of src/server/src/web_server.rs:
GET/POST are resolved against the route table (200 with the mapped file's
contents, else 404 with the contents of `404.html`); HEAD/OPTIONS get 501;
every other method gets 405.  `fs` is the ambient file system. -/
def response (fs : Fs) (routes : Routes) (req : Request) : RespResult :=
  match req.method with
  | Method.GET | Method.POST =>
    match routesGet routes req.uri with
    | some file =>
      match fs file with
      | some body => RespResult.ok (Response.build 200 body)
      | none => RespResult.panicMissingFile file
    | none =>
      match fs "404.html" with
      | some body => RespResult.ok (Response.build 404 body)
      | none => RespResult.panicMissingFile "404.html"
  | Method.HEAD | Method.OPTIONS =>
    RespResult.ok (Response.build 501
      ("Server does not support " ++ methodStr req.method ++ " requests"))
  | m =>
    RespResult.ok (Response.build 405
      ("Server does not allow " ++ methodStr m ++ " requests"))

/-- The response serialization of `handle_connection`
(src/server/src/web_server.rs lines 76-81):
`format!("{:?} {}\r\n\r\n{}", version, status, body)`. -/
def serializeResponse (r : Response) : String :=
  versionDebug r.version ++ " " ++ statusDisplay r.status ++ "\r\n\r\n" ++ r.body

/-- True when a string contains no carriage return and no line feed. -/
def crlfFree (s : String) : Bool :=
  s.toList.all (fun c => c ≠ '\r' && c ≠ '\n')

/-! ## Request parsing (`parse_request`, src/server/src/web_server.rs lines 90-155)

The parser works on the raw byte buffer with two lazily compiled regexes:
`LINES = (.*?)\r?\n` and `TOKENS = (.*?)\s`.  Successive non-overlapping
matches of such a pattern partition a prefix of the input into chunks, each
chunk extending from the end of the previous match up to and including the
next byte of the terminator class (`\n` for lines, whitespace for tokens).
Bytes after the last terminator never belong to a match.  Note that a match
of `(.*?)\s` includes its final whitespace byte, so every extracted token
carries a trailing whitespace byte. -/
/-- Whitespace bytes, the ASCII meaning of the regex class used by
`TOKENS` (space, tab, line feed, vertical tab, form feed, carriage return). -/
def isWs (b : Nat) : Bool :=
  b == 32 || b == 9 || b == 10 || b == 11 || b == 12 || b == 13

/-- Successive matches of `(.*?)T` over a byte list, where `p` recognizes
the terminator class `T`: each returned chunk ends with (and includes) a
terminator byte; a trailing run without terminator yields no match. -/
def chunksAux (p : Nat → Bool) (acc : List Nat) : List Nat → List (List Nat)
  | [] => []
  | b :: rest =>
    if p b then (acc ++ [b]) :: chunksAux p [] rest
    else chunksAux p (acc ++ [b]) rest

/-- The matches of the `LINES` regex `(.*?)\r?\n` over the buffer: the
chunks ending at each line feed byte. -/
def splitLines (buf : List Nat) : List (List Nat) :=
  chunksAux (fun b => b == 10) [] buf

/-- The `match version { b"HTTP/0.9" => ..., _ => unreachable!() }` table of
`parse_request` (lines 112-119); `none` models the `unreachable!()` arm. -/
def parseVersion (tok : List Nat) : Option Version :=
  if tok = strBytes "HTTP/0.9" then some Version.http09
  else if tok = strBytes "HTTP/1.0" then some Version.http10
  else if tok = strBytes "HTTP/1.1" then some Version.http11
  else if tok = strBytes "HTTP/2.0" then some Version.http2
  else if tok = strBytes "HTTP/3.0" then some Version.http3
  else none

/-- One header line, matched against `(?P<key>.*?):(?P<value>.*)`
(line 126): the key is everything before the first colon, the value the
rest of the line up to the final line feed; a line without a colon makes
the `captures(...).unwrap()` at line 140 panic (`none`). -/
def parseHeader (line : List Nat) : Option (List Nat × List Nat) :=
  match line.findIdx? (fun b => b == 58) with
  | none => none
  | some i => some (line.take i, (line.drop (i + 1)).takeWhile (fun b => b != 10))

/-- The header loop of `parse_request` (lines 130-145): it consumes every
remaining line match (the blank-line check at line 136 compares against an
empty match, which the `LINES` regex can never produce), so all remaining
lines must parse as headers. -/
def parseHeaders : List (List Nat) → Option (List (List Nat × List Nat))
  | [] => some []
  | l :: ls =>
    match parseHeader l with
    | none => none
    | some h => (parseHeaders ls).map (fun hs => h :: hs)

/-- Bytes allowed in an HTTP method token by `http::Method::from_bytes`. -/
def isMethodTokenByte (b : Nat) : Bool :=
  (65 ≤ b && b ≤ 90) || (97 ≤ b && b ≤ 122) || (48 ≤ b && b ≤ 57) ||
  b == 33 || b == 35 || b == 36 || b == 37 || b == 38 || b == 39 ||
  b == 42 || b == 43 || b == 45 || b == 46 || b == 94 || b == 95 ||
  b == 96 || b == 124 || b == 126

/-- Model of `http::Method::from_bytes`: the nine standard tokens, else an
extension method when every byte is a valid token byte, else an error. -/
def Method.from_bytes (bs : List Nat) : Option Method :=
  if bs = strBytes "GET" then some Method.GET
  else if bs = strBytes "POST" then some Method.POST
  else if bs = strBytes "PUT" then some Method.PUT
  else if bs = strBytes "DELETE" then some Method.DELETE
  else if bs = strBytes "HEAD" then some Method.HEAD
  else if bs = strBytes "OPTIONS" then some Method.OPTIONS
  else if bs = strBytes "CONNECT" then some Method.CONNECT
  else if bs = strBytes "PATCH" then some Method.PATCH
  else if bs = strBytes "TRACE" then some Method.TRACE
  else if bs ≠ [] && bs.all isMethodTokenByte then some (Method.ext bs)
  else none

/-- Path component of a URI given as raw bytes (`http::Uri::path` on the
origin-form URIs this server sees): the bytes before any query or fragment
delimiter.  URI syntax validation by the builder is not modelled; no claim
depends on it and the construction site is unreachable (see
`parse_request_never_ok`). -/
def uriPath (uri : List Nat) : String :=
  stringOfBytes (uri.takeWhile (fun b => b != 63 && b != 35))

/-- Outcome of `parse_request`.  The function has no error return type in
the source: every failure is a panic (`unwrap` on a missing regex match,
the `unreachable!()` version arm, `unwrap` on a header without a colon, or
the final `request.body(body).unwrap()` when the builder accumulated an
invalid method token). -/
inductive ParseResult where
  | ok (r : Request)
  | panicNoLine
  | panicNoToken
  | panicBadVersion
  | panicBadHeader
  | panicBuild
deriving DecidableEq

/-- True when the outcome of `parse_request` is a panic. -/
def isParsePanic : ParseResult → Bool
  | ParseResult.ok _ => false
  | _ => true

/-- The parser `parse_request` of src/server/src/web_server.rs.
Stage by stage, following the source: the first `LINES` match is the
request line (`unwrap` panics when the buffer holds no line feed); three
`TOKENS` matches give method, uri and version (`unwrap` panics when fewer
than three whitespace bytes occur in the line; extra tokens are ignored);
the version token is matched against the five recognized strings
(`unreachable!()` otherwise); the remaining line matches are parsed as
headers; the body is the bytes after the iterator is exhausted, which is
always empty; finally the builder's `body(..).unwrap()` panics when the
method token was invalid. -/
def parse_request (buf : List Nat) : ParseResult :=
  match splitLines buf with
  | [] => ParseResult.panicNoLine
  | firstLine :: restLines =>
    match chunksAux isWs [] firstLine with
    | mTok :: uTok :: vTok :: _ =>
      match parseVersion vTok with
      | none => ParseResult.panicBadVersion
      | some v =>
        match parseHeaders restLines with
        | none => ParseResult.panicBadHeader
        | some hs =>
          match Method.from_bytes mTok with
          | none => ParseResult.panicBuild
          | some m =>
            ParseResult.ok
              { method := m, uri := uriPath uTok, version := v,
                headers := hs, body := [] }
    | _ => ParseResult.panicNoToken

/-! ## Connection handling (`handle_connection` and the task closure) -/
/-- One TCP connection as the task sees it: the result of the single
`stream.read` into the 512-byte buffer (`none` is a read error), and
whether the socket write and flush succeed. -/
structure Conn where
  readResult : Option (List Nat)
  writeOk : Bool
  flushOk : Bool
deriving DecidableEq

/-- Outcome of the closure `|| handle_connection(routes, stream).unwrap()`
submitted by `WebServer::start` (lines 51-53): the task either runs to
completion or panics.  A panic unwinds through the worker's loop and
terminates the worker thread. -/
inductive TaskOutcome where
  | completed
  | panicked
deriving DecidableEq

/-- The connection task: `handle_connection` (lines 63-88) wrapped in the
`.unwrap()` closure of `WebServer::start`.  A read error is returned with
`?` and then unwrapped by the closure; a parse failure panics inside
`parse_request`; a missing file panics inside `response`; a write or flush
error is unwrapped at lines 84-85. -/
def connectionTask (fs : Fs) (routes : Routes) (c : Conn) : TaskOutcome :=
  match c.readResult with
  | none => TaskOutcome.panicked
  | some buf =>
    match parse_request buf with
    | ParseResult.ok req =>
      match response fs routes req with
      | RespResult.ok _ =>
        if c.writeOk && c.flushOk then TaskOutcome.completed
        else TaskOutcome.panicked
      | RespResult.panicMissingFile _ => TaskOutcome.panicked
    | _ => TaskOutcome.panicked

/-! ## Worker pool (`mod thread_pool`, src/server/src/lib.rs lines 133-251)

The pool is modelled as a labelled transition system.  A state carries the
channel contents (`queue`, FIFO with the head dequeued next: `recv` under
the shared `Mutex` hands each message to exactly one worker), the workers
with their control status, and ghost history variables recording the
identifiers of submitted, delivered and executed jobs.  Job identifiers
are assigned in submission order (`nextId`), standing for the opaque boxed
closures.  Worker steps (`WStep`) model one worker dequeuing a job,
finishing a job, or dequeuing the terminate message and exiting its loop;
`Step` additionally allows `execute` submissions while the pool is alive.
`ThreadPool.dropSends` models the first half of `Drop for ThreadPool`
(one `Terminate` sent per worker); the join loop of `Drop` corresponds to
reaching a state whose workers are all `done`. -/
/-- The channel message type `enum Message { NewJob(Job), Terminate }`,
with a job represented by its ghost identifier. -/
inductive Message where
  | newJob (id : Nat)
  | terminate
deriving DecidableEq

/-- Control status of a worker thread: blocked on `recv`,
running a job, or exited from its loop. -/
inductive WStatus where
  | idle
  | running (id : Nat)
  | done
deriving DecidableEq

/-- A worker: its id plus the modelled status of its thread
(`struct Worker { id, thread }`). -/
structure Worker where
  id : Nat
  status : WStatus
deriving DecidableEq

/-- `Worker::new` spawns the thread, which immediately blocks on `recv`. -/
def Worker.new (id : Nat) : Worker :=
  { id := id, status := WStatus.idle }

/-- State of a `ThreadPool` together with its channel and ghost history:
`queue` is the channel contents (head is received next), `workers` the
worker vector, `submitted`/`delivered`/`executed` record job ids in order
of submission, dequeue and completion, and `nextId` generates fresh ids. -/
structure ThreadPool where
  queue : List Message
  workers : List Worker
  submitted : List Nat
  delivered : List Nat
  executed : List Nat
  nextId : Nat
deriving DecidableEq

/-- The error type `PoolCreationError`. -/
inductive PoolCreationError where
  | mk
deriving DecidableEq

/-- The pool state built by `ThreadPool::new` on the non-zero branch:
an empty channel and `size` workers created by mapping `Worker::new`
over `0..size`. -/
def ThreadPool.init (size : Nat) : ThreadPool :=
  { queue := [], workers := (List.range size).map Worker.new,
    submitted := [], delivered := [], executed := [], nextId := 0 }

/-- `ThreadPool::new` (lines 162-177): `0` yields `Err(PoolCreationError)`,
any other size yields the pool with `size` workers. -/
def ThreadPool.new (size : Nat) : Except PoolCreationError ThreadPool :=
  match size with
  | 0 => Except.error PoolCreationError.mk
  | _ => Except.ok (ThreadPool.init size)

/-- Worker transitions.  The shared `Mutex` around the receiver makes each
dequeue atomic: exactly one idle worker removes the head message.  A
worker that dequeues `NewJob` runs it and returns to `idle` when the job
finishes; a worker that dequeues `Terminate` breaks out of its loop. -/
inductive WStep : ThreadPool → ThreadPool → Prop where
  | dequeueJob (s : ThreadPool) (w : Nat) (wk : Worker) (id : Nat)
      (rest : List Message)
      (hq : s.queue = Message.newJob id :: rest)
      (hw : s.workers[w]? = some wk)
      (hi : wk.status = WStatus.idle) :
      WStep s { s with
        queue := rest,
        workers := s.workers.set w { wk with status := WStatus.running id },
        delivered := s.delivered ++ [id] }
  | finishJob (s : ThreadPool) (w : Nat) (wk : Worker) (id : Nat)
      (hw : s.workers[w]? = some wk)
      (hr : wk.status = WStatus.running id) :
      WStep s { s with
        workers := s.workers.set w { wk with status := WStatus.idle },
        executed := s.executed ++ [id] }
  | dequeueTerm (s : ThreadPool) (w : Nat) (wk : Worker)
      (rest : List Message)
      (hq : s.queue = Message.terminate :: rest)
      (hw : s.workers[w]? = some wk)
      (hi : wk.status = WStatus.idle) :
      WStep s { s with
        queue := rest,
        workers := s.workers.set w { wk with status := WStatus.done } }

/-- Transitions of the live pool: a caller may submit a task through
`execute` (lines 179-186), which sends `NewJob` on the channel, and the
workers take their steps concurrently. -/
inductive Step : ThreadPool → ThreadPool → Prop where
  | execute (s : ThreadPool) :
      Step s { s with
        queue := s.queue ++ [Message.newJob s.nextId],
        submitted := s.submitted ++ [s.nextId],
        nextId := s.nextId + 1 }
  | worker (s t : ThreadPool) (h : WStep s t) : Step s t

/-- The send loop of `Drop for ThreadPool` (lines 193-197): one
`Terminate` message is sent per worker.  Sends interleaved with worker
dequeues commute with them (sends append at the tail, dequeues remove the
head), so the loop is modelled as one atomic append. -/
def ThreadPool.dropSends (s : ThreadPool) : ThreadPool :=
  { s with queue := s.queue ++ List.replicate s.workers.length Message.terminate }

/-- All worker threads have exited: the state in which the join loop of
`Drop` (lines 201-207) returns. -/
def allDone (ws : List Worker) : Prop := ∀ wk ∈ ws, wk.status = WStatus.done

instance (ws : List Worker) : Decidable (allDone ws) :=
  List.decidableBAll (fun wk : Worker => wk.status = WStatus.done) ws

/-- Occurrences of job `i` in the channel. -/
def countJobs (i : Nat) (q : List Message) : Nat :=
  cntP (fun m => m == Message.newJob i) q

/-- Occurrences of `Terminate` in the channel. -/
def countTerm (q : List Message) : Nat :=
  cntP (fun m => m == Message.terminate) q

/-- Number of workers currently running job `i`. -/
def countRun (i : Nat) (ws : List Worker) : Nat :=
  cntP (fun wk => wk.status == WStatus.running i) ws

/-- Number of workers that have exited. -/
def doneCount (ws : List Worker) : Nat :=
  cntP (fun wk => wk.status == WStatus.done) ws

/-- Invariant of the live pool, reachable from `ThreadPool.init n`:
the worker count is fixed, submitted ids are exactly `0..nextId` (hence
pairwise distinct), no terminate message and no exited worker exists yet,
and the ghost ledgers balance: every submitted job is either still queued
or was delivered to exactly one worker, and every delivered job is either
being run by exactly one worker or has been executed. -/
structure PoolInv (n : Nat) (s : ThreadPool) : Prop where
  wlen : s.workers.length = n
  sub : s.submitted = List.range s.nextId
  noTerm : countTerm s.queue = 0
  noDone : doneCount s.workers = 0
  balance : ∀ i, cntNat i s.submitted = countJobs i s.queue + cntNat i s.delivered
  deliv : ∀ i, cntNat i s.delivered = countRun i s.workers + cntNat i s.executed

/-! ### The shutdown (drain) phase -/
/-- Invariant of the teardown phase, relative to the state `t0` in which
`Drop` has just enqueued the terminate messages: worker steps only remove
messages from the head of the FIFO queue, keep the worker count and the
submission ledger, trade terminate messages one-for-one against exited
workers, and preserve both ledgers. -/
structure DrainInv (t0 u : ThreadPool) : Prop where
  suffix : ∃ pre, pre ++ u.queue = t0.queue
  wlen : u.workers.length = t0.workers.length
  subm : u.submitted = t0.submitted
  tdone : doneCount u.workers + countTerm u.queue
      = doneCount t0.workers + countTerm t0.queue
  balance : ∀ i, cntNat i u.submitted = countJobs i u.queue + cntNat i u.delivered
  deliv : ∀ i, cntNat i u.delivered = countRun i u.workers + cntNat i u.executed

/-! ## The memoizing cache (`Cacher`, src/cacher/src/lib.rs) -/
/-- `Cacher<T, U, V>`: a calculation `U -> V` plus a map of memoized
results (`pub values: HashMap<U, V>`, modelled as an association list). -/
structure Cacher (U V : Type) where
  calculation : U → V
  values : List (U × V)

/-- `Cacher::new`: stores the calculation with an empty map. -/
def Cacher.new {U V : Type} (calculation : U → V) : Cacher U V :=
  { calculation := calculation, values := [] }

/-- `Cacher::value`: `self.values.entry(arg).or_insert((self.calculation)(arg))`.
On an occupied entry the existing value is returned and the map is left
unchanged (`or_insert` evaluates its argument eagerly, but for the pure
calculations modelled here that is unobservable); on a vacant entry the
calculation's result is inserted and returned.  The Rust method returns a
reference and mutates `self`; the model returns the value paired with the
updated cache. -/
def Cacher.value {U V : Type} [DecidableEq U] (c : Cacher U V) (arg : U) :
    V × Cacher U V :=
  match assocFind c.values arg with
  | some v => (v, c)
  | none =>
    (c.calculation arg,
      { c with values := c.values ++ [(arg, c.calculation arg)] })

/-- A cacher as obtained from `Cacher::new(f)` followed by any sequence of
`value` calls. -/
def Cacher.runAll {U V : Type} [DecidableEq U] (f : U → V) (args : List U) :
    Cacher U V :=
  args.foldl (fun c a => (c.value a).snd) (Cacher.new f)

/-- Soundness of a cache for `f`: the stored calculation is `f` and every
memoized entry holds the value of `f` at its key. -/
def CacherSound {U V : Type} [DecidableEq U] (f : U → V) (c : Cacher U V) : Prop :=
  c.calculation = f ∧ ∀ k v, assocFind c.values k = some v → v = f k

/-! ## Demonstration values used by the witnesses -/
/-- A file system with the two files of the spec's examples. -/
def fsDemo : Fs := fun name =>
  if name = "hello.html" then some "<html>Hi</html>"
  else if name = "404.html" then some "Not Found"
  else none

/-- The route table of the spec's examples. -/
def routesDemo : Routes := [("/", "hello.html")]

/-- A parsed request with the given method and path. -/
def reqDemo (m : Method) (path : String) : Request :=
  { method := m, uri := path, version := Version.http11, headers := [], body := [] }

/-- The status line part of a serialized response. -/
def statusHead (r : Response) : String :=
  versionDebug r.version ++ " " ++ statusDisplay r.status

/-- A one-worker pool after one `execute` call. -/
def poolW1 : ThreadPool :=
  { queue := [Message.newJob 0], workers := [Worker.new 0],
    submitted := [0], delivered := [], executed := [], nextId := 1 }

/-- The one-worker pool mid-drain: the job was dequeued. -/
def poolU1 : ThreadPool :=
  { queue := [Message.terminate],
    workers := [{ id := 0, status := WStatus.running 0 }],
    submitted := [0], delivered := [0], executed := [], nextId := 1 }

/-- The one-worker pool mid-drain: the job finished. -/
def poolU2 : ThreadPool :=
  { queue := [Message.terminate],
    workers := [{ id := 0, status := WStatus.idle }],
    submitted := [0], delivered := [0], executed := [0], nextId := 1 }

/-- The one-worker pool fully drained: the worker exited. -/
def poolU3 : ThreadPool :=
  { queue := [],
    workers := [{ id := 0, status := WStatus.done }],
    submitted := [0], delivered := [0], executed := [0], nextId := 1 }

/-! ## Theorems -/

theorem cntP_nil {α : Type} (p : α → Bool) : cntP p [] = 0 := rfl

theorem cntP_cons {α : Type} (p : α → Bool) (a : α) (l : List α) :
    cntP p (a :: l) = (if p a then 1 else 0) + cntP p l := rfl

theorem cntP_append {α : Type} (p : α → Bool) (l₁ l₂ : List α) :
    cntP p (l₁ ++ l₂) = cntP p l₁ + cntP p l₂ := by
  induction l₁ with
  | nil => simp [cntP]
  | cons a t ih => simp [cntP, ih]; omega

theorem cntP_replicate {α : Type} (p : α → Bool) (n : Nat) (a : α) :
    cntP p (List.replicate n a) = if p a then n else 0 := by
  induction n with
  | zero => cases hpa : p a <;> simp [cntP, hpa]
  | succ m ih =>
    cases hpa : p a
    · simp [List.replicate_succ, cntP, hpa, ih]
    · simp [List.replicate_succ, cntP, hpa, ih]
      omega

theorem cntP_eq_zero_of {α : Type} (p : α → Bool) (l : List α)
    (h : ∀ a ∈ l, p a = false) : cntP p l = 0 := by
  induction l with
  | nil => rfl
  | cons a t ih =>
    have hpa := h a (by simp)
    rw [cntP_cons, if_neg (by simp [hpa]), ih (fun b hb => h b (by simp [hb]))]

theorem eq_false_of_cntP_eq_zero {α : Type} (p : α → Bool) (l : List α)
    (h : cntP p l = 0) : ∀ a ∈ l, p a = false := by
  induction l with
  | nil => intro a ha; simp at ha
  | cons b t ih =>
    intro a ha
    rw [cntP_cons] at h
    rcases List.mem_cons.mp ha with rfl | hat
    · cases hpa : p a
      · rfl
      · rw [if_pos hpa] at h; omega
    · cases hpb : p b
      · rw [if_neg (by simp [hpb])] at h
        exact ih (by omega) a hat
      · rw [if_pos hpb] at h; omega

theorem cntP_eq_length_of {α : Type} (p : α → Bool) (l : List α)
    (h : ∀ a ∈ l, p a = true) : cntP p l = l.length := by
  induction l with
  | nil => rfl
  | cons a t ih =>
    have hpa := h a (by simp)
    rw [cntP_cons, if_pos hpa, ih (fun b hb => h b (by simp [hb])), List.length_cons]
    omega

/-- Counting is stable under `List.set` up to the old and new element. -/
theorem cntP_set {α : Type} (p : α → Bool) (l : List α) (n : Nat) (a x : α)
    (h : l[n]? = some a) :
    cntP p (l.set n x) + (if p a then 1 else 0)
      = cntP p l + (if p x then 1 else 0) := by
  induction l generalizing n with
  | nil => simp at h
  | cons b t ih =>
    cases n with
    | zero =>
      simp only [List.getElem?_cons_zero, Option.some.injEq] at h
      subst h
      simp only [List.set, cntP_cons]
      omega
    | succ m =>
      simp only [List.getElem?_cons_succ] at h
      have := ih m h
      simp only [List.set, cntP_cons]
      omega

theorem cntNat_range (i n : Nat) :
    cntNat i (List.range n) = if i < n then 1 else 0 := by
  induction n with
  | zero => simp [cntNat, cntP]
  | succ m ih =>
    rw [List.range_succ]
    unfold cntNat at ih ⊢
    rw [cntP_append, ih, cntP_cons, cntP_nil]
    by_cases him : i = m
    · subst him
      simp
    · have hne : (m == i) = false := by simp [Ne.symm him]
      rw [hne]
      by_cases hlt : i < m
      · have h' : i < m + 1 := by omega
        simp [hlt, h']
      · have h' : ¬ i < m + 1 := by omega
        simp [hlt, h']

theorem assocFind_append_left {U V : Type} [DecidableEq U]
    (m l : List (U × V)) (k : U) (v : V) (h : assocFind m k = some v) :
    assocFind (m ++ l) k = some v := by
  induction m with
  | nil => simp [assocFind] at h
  | cons kv rest ih =>
    by_cases hk : kv.fst = k
    · simp [assocFind, hk] at h ⊢; exact h
    · simp [assocFind, hk] at h ⊢; exact ih h

theorem assocFind_append_new {U V : Type} [DecidableEq U]
    (m : List (U × V)) (k : U) (v : V) (h : assocFind m k = none) :
    assocFind (m ++ [(k, v)]) k = some v := by
  induction m with
  | nil => simp [assocFind]
  | cons kv rest ih =>
    by_cases hk : kv.fst = k
    · simp [assocFind, hk] at h
    · simp [assocFind, hk] at h ⊢; exact ih h

theorem assocFind_append_single {U V : Type} [DecidableEq U]
    (m : List (U × V)) (a k : U) (w v : V)
    (h : assocFind (m ++ [(a, w)]) k = some v) :
    assocFind m k = some v ∨ (k = a ∧ v = w ∧ assocFind m k = none) := by
  induction m with
  | nil =>
    simp only [List.nil_append, assocFind] at h
    by_cases hk : a = k
    · simp [hk] at h; right; exact ⟨hk.symm, h.symm, rfl⟩
    · simp [hk] at h
  | cons kv rest ih =>
    by_cases hk : kv.fst = k
    · simp [assocFind, hk] at h ⊢; exact h
    · simp only [List.cons_append, assocFind, hk, if_false] at h
      rcases ih h with h' | h'
      · left; simp [assocFind, hk]; exact h'
      · right; refine ⟨h'.1, h'.2.1, ?_⟩; simp [assocFind, hk]; exact h'.2.2

/-! ### Counting lemmas specialized to the pool state -/
theorem countJobs_cons_job (i j : Nat) (q : List Message) :
    countJobs i (Message.newJob j :: q) = (if j = i then 1 else 0) + countJobs i q := by
  unfold countJobs
  rw [cntP_cons]
  by_cases h : j = i <;> simp [h]

theorem countJobs_cons_term (i : Nat) (q : List Message) :
    countJobs i (Message.terminate :: q) = countJobs i q := by
  unfold countJobs
  rw [cntP_cons]
  simp

theorem countJobs_append_job (i j : Nat) (q : List Message) :
    countJobs i (q ++ [Message.newJob j]) = countJobs i q + (if j = i then 1 else 0) := by
  unfold countJobs
  rw [cntP_append, cntP_cons, cntP_nil]
  by_cases h : j = i <;> simp [h]

theorem countJobs_append_term (i n : Nat) (q : List Message) :
    countJobs i (q ++ List.replicate n Message.terminate) = countJobs i q := by
  unfold countJobs
  rw [cntP_append, cntP_replicate]
  simp

theorem countTerm_cons_job (j : Nat) (q : List Message) :
    countTerm (Message.newJob j :: q) = countTerm q := by
  unfold countTerm
  rw [cntP_cons]
  simp

theorem countTerm_cons_term (q : List Message) :
    countTerm (Message.terminate :: q) = countTerm q + 1 := by
  unfold countTerm
  rw [cntP_cons]
  simp
  omega

theorem countTerm_append_job (j : Nat) (q : List Message) :
    countTerm (q ++ [Message.newJob j]) = countTerm q := by
  unfold countTerm
  rw [cntP_append, cntP_cons, cntP_nil]
  simp

theorem countTerm_append_term (n : Nat) (q : List Message) :
    countTerm (q ++ List.replicate n Message.terminate) = countTerm q + n := by
  unfold countTerm
  rw [cntP_append, cntP_replicate]
  simp

theorem cntNat_append_one (i j : Nat) (l : List Nat) :
    cntNat i (l ++ [j]) = cntNat i l + (if j = i then 1 else 0) := by
  unfold cntNat
  rw [cntP_append, cntP_cons, cntP_nil]
  by_cases h : j = i <;> simp [h]

theorem countRun_set_start (i id : Nat) (ws : List Worker) (w : Nat) (wk : Worker)
    (hw : ws[w]? = some wk) (hi : wk.status = WStatus.idle) :
    countRun i (ws.set w { wk with status := WStatus.running id })
      = countRun i ws + (if id = i then 1 else 0) := by
  have hset := cntP_set (fun u => u.status == WStatus.running i) ws w wk
      { wk with status := WStatus.running id } hw
  simp only [hi] at hset
  by_cases hii : id = i
  · subst hii
    simp at hset
    unfold countRun
    simp
    omega
  · simp [hii] at hset
    unfold countRun
    simp [hii]
    omega

theorem countRun_set_finish (i id : Nat) (ws : List Worker) (w : Nat) (wk : Worker)
    (hw : ws[w]? = some wk) (hr : wk.status = WStatus.running id) :
    countRun i (ws.set w { wk with status := WStatus.idle })
        + (if id = i then 1 else 0)
      = countRun i ws := by
  have hset := cntP_set (fun u => u.status == WStatus.running i) ws w wk
      { wk with status := WStatus.idle } hw
  simp only [hr] at hset
  by_cases hii : id = i
  · subst hii
    simp at hset
    unfold countRun
    simp
    omega
  · simp [hii] at hset
    unfold countRun
    simp [hii]
    omega

theorem countRun_set_done (i : Nat) (ws : List Worker) (w : Nat) (wk : Worker)
    (hw : ws[w]? = some wk) (hi : wk.status = WStatus.idle) :
    countRun i (ws.set w { wk with status := WStatus.done }) = countRun i ws := by
  have hset := cntP_set (fun u => u.status == WStatus.running i) ws w wk
      { wk with status := WStatus.done } hw
  simp only [hi] at hset
  simp at hset
  unfold countRun
  omega

theorem doneCount_set_run (id : Nat) (ws : List Worker) (w : Nat) (wk : Worker)
    (hw : ws[w]? = some wk) (hi : wk.status = WStatus.idle) :
    doneCount (ws.set w { wk with status := WStatus.running id }) = doneCount ws := by
  have hset := cntP_set (fun u => u.status == WStatus.done) ws w wk
      { wk with status := WStatus.running id } hw
  simp only [hi] at hset
  simp at hset
  unfold doneCount
  omega

theorem doneCount_set_idle (id : Nat) (ws : List Worker) (w : Nat) (wk : Worker)
    (hw : ws[w]? = some wk) (hr : wk.status = WStatus.running id) :
    doneCount (ws.set w { wk with status := WStatus.idle }) = doneCount ws := by
  have hset := cntP_set (fun u => u.status == WStatus.done) ws w wk
      { wk with status := WStatus.idle } hw
  simp only [hr] at hset
  simp at hset
  unfold doneCount
  omega

theorem doneCount_set_done (ws : List Worker) (w : Nat) (wk : Worker)
    (hw : ws[w]? = some wk) (hi : wk.status = WStatus.idle) :
    doneCount (ws.set w { wk with status := WStatus.done }) = doneCount ws + 1 := by
  have hset := cntP_set (fun u => u.status == WStatus.done) ws w wk
      { wk with status := WStatus.done } hw
  simp only [hi] at hset
  simp at hset
  unfold doneCount
  omega

/-! ### Preservation of the ledgers under worker steps -/
theorem wstep_submitted {s t : ThreadPool} (h : WStep s t) : t.submitted = s.submitted := by
  cases h <;> rfl

theorem wstep_nextId {s t : ThreadPool} (h : WStep s t) : t.nextId = s.nextId := by
  cases h <;> rfl

theorem wstep_wlen {s t : ThreadPool} (h : WStep s t) :
    t.workers.length = s.workers.length := by
  cases h <;> simp

theorem wstep_queue_suffix {s t : ThreadPool} (h : WStep s t) :
    ∃ pre, pre ++ t.queue = s.queue := by
  cases h with
  | dequeueJob w wk id rest hq hw hi => exact ⟨[Message.newJob id], hq.symm⟩
  | finishJob w wk id hw hr => exact ⟨[], rfl⟩
  | dequeueTerm w wk rest hq hw hi => exact ⟨[Message.terminate], hq.symm⟩

theorem wstep_balance {s t : ThreadPool} (h : WStep s t)
    (hb : ∀ i, cntNat i s.submitted = countJobs i s.queue + cntNat i s.delivered) :
    ∀ i, cntNat i t.submitted = countJobs i t.queue + cntNat i t.delivered := by
  cases h with
  | dequeueJob w wk id rest hq hw hi =>
    intro i
    have hbi := hb i
    rw [hq, countJobs_cons_job] at hbi
    show cntNat i s.submitted = countJobs i rest + cntNat i (s.delivered ++ [id])
    rw [cntNat_append_one]
    omega
  | finishJob w wk id hw hr =>
    intro i
    exact hb i
  | dequeueTerm w wk rest hq hw hi =>
    intro i
    have hbi := hb i
    rw [hq, countJobs_cons_term] at hbi
    exact hbi

theorem wstep_deliv {s t : ThreadPool} (h : WStep s t)
    (hd : ∀ i, cntNat i s.delivered = countRun i s.workers + cntNat i s.executed) :
    ∀ i, cntNat i t.delivered = countRun i t.workers + cntNat i t.executed := by
  cases h with
  | dequeueJob w wk id rest hq hw hi =>
    intro i
    have hdi := hd i
    have hrun := countRun_set_start i id s.workers w wk hw hi
    show cntNat i (s.delivered ++ [id])
        = countRun i (s.workers.set w { wk with status := WStatus.running id })
          + cntNat i s.executed
    rw [cntNat_append_one, hrun]
    omega
  | finishJob w wk id hw hr =>
    intro i
    have hdi := hd i
    have hrun := countRun_set_finish i id s.workers w wk hw hr
    show cntNat i s.delivered
        = countRun i (s.workers.set w { wk with status := WStatus.idle })
          + cntNat i (s.executed ++ [id])
    rw [cntNat_append_one]
    omega
  | dequeueTerm w wk rest hq hw hi =>
    intro i
    have hdi := hd i
    have hrun := countRun_set_done i s.workers w wk hw hi
    show cntNat i s.delivered
        = countRun i (s.workers.set w { wk with status := WStatus.done })
          + cntNat i s.executed
    rw [hrun]
    exact hdi

theorem wstep_term_done {s t : ThreadPool} (h : WStep s t) :
    doneCount t.workers + countTerm t.queue = doneCount s.workers + countTerm s.queue := by
  cases h with
  | dequeueJob w wk id rest hq hw hi =>
    have h1 := doneCount_set_run id s.workers w wk hw hi
    show doneCount (s.workers.set w { wk with status := WStatus.running id })
        + countTerm rest = doneCount s.workers + countTerm s.queue
    rw [hq, countTerm_cons_job, h1]
  | finishJob w wk id hw hr =>
    have h1 := doneCount_set_idle id s.workers w wk hw hr
    show doneCount (s.workers.set w { wk with status := WStatus.idle })
        + countTerm s.queue = doneCount s.workers + countTerm s.queue
    rw [h1]
  | dequeueTerm w wk rest hq hw hi =>
    have h1 := doneCount_set_done s.workers w wk hw hi
    show doneCount (s.workers.set w { wk with status := WStatus.done })
        + countTerm rest = doneCount s.workers + countTerm s.queue
    rw [hq, countTerm_cons_term, h1]
    omega

/-! ### The live-pool invariant is inductive -/
theorem pool_inv_init (n : Nat) : PoolInv n (ThreadPool.init n) := by
  have hidle : ∀ wk ∈ (ThreadPool.init n).workers, wk.status = WStatus.idle := by
    intro wk hwk
    simp [ThreadPool.init, Worker.new] at hwk
    obtain ⟨id, _, rfl⟩ := hwk
    rfl
  refine ⟨?_, ?_, rfl, ?_, fun i => rfl, ?_⟩
  · simp [ThreadPool.init]
  · exact (List.range_zero).symm
  · apply cntP_eq_zero_of
    intro wk hwk
    rw [hidle wk hwk]
    rfl
  · intro i
    have hrun : countRun i (ThreadPool.init n).workers = 0 := by
      apply cntP_eq_zero_of
      intro wk hwk
      rw [hidle wk hwk]
      rfl
    show (0 : Nat) = countRun i (ThreadPool.init n).workers + 0
    rw [hrun]

theorem pool_inv_step {n : Nat} {s t : ThreadPool}
    (hinv : PoolInv n s) (h : Step s t) : PoolInv n t := by
  cases h with
  | execute =>
    refine ⟨hinv.wlen, ?_, ?_, hinv.noDone, ?_, hinv.deliv⟩
    · show s.submitted ++ [s.nextId] = List.range (s.nextId + 1)
      rw [hinv.sub, List.range_succ]
    · show countTerm (s.queue ++ [Message.newJob s.nextId]) = 0
      rw [countTerm_append_job]
      exact hinv.noTerm
    · intro i
      have hbi := hinv.balance i
      show cntNat i (s.submitted ++ [s.nextId])
          = countJobs i (s.queue ++ [Message.newJob s.nextId]) + cntNat i s.delivered
      rw [cntNat_append_one, countJobs_append_job]
      omega
  | worker t hw =>
    have h1 := wstep_term_done hw
    have h2 := hinv.noTerm
    have h3 := hinv.noDone
    refine ⟨?_, ?_, by omega, by omega,
        wstep_balance hw hinv.balance, wstep_deliv hw hinv.deliv⟩
    · rw [wstep_wlen hw]; exact hinv.wlen
    · rw [wstep_submitted hw, wstep_nextId hw]; exact hinv.sub

theorem pool_inv_reach {n : Nat} {s : ThreadPool}
    (h : Relation.ReflTransGen Step (ThreadPool.init n) s) : PoolInv n s := by
  induction h with
  | refl => exact pool_inv_init n
  | tail hab hbc ih => exact pool_inv_step ih hbc

theorem drain_inv_step {t0 u v : ThreadPool}
    (hinv : DrainInv t0 u) (h : WStep u v) : DrainInv t0 v := by
  obtain ⟨pre, hpre⟩ := hinv.suffix
  obtain ⟨pre2, hpre2⟩ := wstep_queue_suffix h
  have h1 := wstep_term_done h
  have h2 := hinv.tdone
  refine ⟨⟨pre ++ pre2, ?_⟩, ?_, ?_, by omega,
      wstep_balance h hinv.balance, wstep_deliv h hinv.deliv⟩
  · rw [List.append_assoc, hpre2, hpre]
  · rw [wstep_wlen h]; exact hinv.wlen
  · rw [wstep_submitted h]; exact hinv.subm

theorem drain_inv_reach {t0 u : ThreadPool}
    (h : Relation.ReflTransGen WStep t0 u)
    (hb0 : ∀ i, cntNat i t0.submitted = countJobs i t0.queue + cntNat i t0.delivered)
    (hd0 : ∀ i, cntNat i t0.delivered = countRun i t0.workers + cntNat i t0.executed) :
    DrainInv t0 u := by
  induction h with
  | refl => exact ⟨⟨[], rfl⟩, rfl, rfl, rfl, hb0, hd0⟩
  | tail hab hbc ih => exact drain_inv_step ih hbc

theorem append_one_eq_append_one {α : Type} (l₁ l₂ : List α) (a b : α)
    (h : l₁ ++ [a] = l₂ ++ [b]) : a = b := by
  have h' := congrArg List.reverse h
  simp at h'
  exact h'.1

/-- FIFO drain: if, from the state in which `Drop` has enqueued one
`Terminate` per worker, the workers keep stepping until all of them have
exited (the join loop returns), then every job ever submitted to the live
pool has been executed exactly once. -/
theorem drain_executed {n : Nat} {s u : ThreadPool} (hn : 1 ≤ n)
    (hinv : PoolInv n s)
    (hu : Relation.ReflTransGen WStep (ThreadPool.dropSends s) u)
    (hdone : allDone u.workers) :
    ∀ i ∈ s.submitted, cntNat i u.executed = 1 := by
  have ht0q : (ThreadPool.dropSends s).queue
      = s.queue ++ List.replicate n Message.terminate := by
    show s.queue ++ List.replicate s.workers.length Message.terminate = _
    rw [hinv.wlen]
  have hb0 : ∀ i, cntNat i (ThreadPool.dropSends s).submitted
      = countJobs i (ThreadPool.dropSends s).queue
        + cntNat i (ThreadPool.dropSends s).delivered := by
    intro i
    show cntNat i s.submitted
        = countJobs i (s.queue ++ List.replicate s.workers.length Message.terminate)
          + cntNat i s.delivered
    rw [countJobs_append_term]
    exact hinv.balance i
  have hd0 : ∀ i, cntNat i (ThreadPool.dropSends s).delivered
      = countRun i (ThreadPool.dropSends s).workers
        + cntNat i (ThreadPool.dropSends s).executed := hinv.deliv
  have di := drain_inv_reach hu hb0 hd0
  -- all workers of `u` have exited
  have hdoneN : doneCount u.workers = u.workers.length := by
    apply cntP_eq_length_of
    intro wk hwk
    rw [hdone wk hwk]
    rfl
  have hwlen : u.workers.length = n := by
    rw [di.wlen]
    show s.workers.length = n
    exact hinv.wlen
  -- the terminate count of `t0` is `n`, its done count `0`
  have htermt0 : countTerm (ThreadPool.dropSends s).queue = n := by
    rw [ht0q, countTerm_append_term, hinv.noTerm]
    omega
  have hdonet0 : doneCount (ThreadPool.dropSends s).workers = 0 := hinv.noDone
  -- hence no terminate message is left in `u`
  have hterm0 : countTerm u.queue = 0 := by
    have := di.tdone
    rw [htermt0, hdonet0, hdoneN, hwlen] at this
    omega
  -- and therefore the queue of `u` is completely drained
  have hqnil : u.queue = [] := by
    rcases List.eq_nil_or_concat u.queue with hnil | ⟨q0, x, hx⟩
    · exact hnil
    · exfalso
      obtain ⟨pre, hpre⟩ := di.suffix
      obtain ⟨m, hm⟩ : ∃ m, n = m + 1 := ⟨n - 1, by omega⟩
      have hrep : List.replicate n Message.terminate
          = List.replicate m Message.terminate ++ [Message.terminate] := by
        rw [hm, List.replicate_succ']
      have heq : (pre ++ q0) ++ [x]
          = (s.queue ++ List.replicate m Message.terminate) ++ [Message.terminate] := by
        rw [List.append_assoc pre q0, ← List.concat_eq_append q0 x, ← hx, hpre,
          ht0q, hrep, List.append_assoc]
      have hx_term : x = Message.terminate :=
        append_one_eq_append_one _ _ _ _ heq
      have hx_mem : x ∈ u.queue := by
        rw [hx]
        simp
      have := eq_false_of_cntP_eq_zero _ _ hterm0 x hx_mem
      rw [hx_term] at this
      simp at this
  -- with the queue empty and every worker exited, the ledgers collapse
  intro i hi
  have hsub1 : cntNat i s.submitted = 1 := by
    rw [hinv.sub] at hi ⊢
    rw [cntNat_range, if_pos (List.mem_range.mp hi)]
  have hbal := di.balance i
  rw [di.subm] at hbal
  have hbal' : cntNat i s.submitted = countJobs i u.queue + cntNat i u.delivered := hbal
  rw [hqnil] at hbal'
  have hrun0 : countRun i u.workers = 0 := by
    apply cntP_eq_zero_of
    intro wk hwk
    rw [hdone wk hwk]
    rfl
  have hdel := di.deliv i
  rw [hrun0] at hdel
  have hjobs0 : countJobs i ([] : List Message) = 0 := rfl
  omega

theorem cacherSound_new {U V : Type} [DecidableEq U] (f : U → V) :
    CacherSound f (Cacher.new f) := by
  refine ⟨rfl, fun k v h => ?_⟩
  simp [Cacher.new, assocFind] at h

theorem cacherSound_value {U V : Type} [DecidableEq U] {f : U → V}
    {c : Cacher U V} (h : CacherSound f c) (a : U) :
    CacherSound f (c.value a).snd := by
  unfold Cacher.value
  rcases hf : assocFind c.values a with _ | v
  · refine ⟨h.1, fun k v hk => ?_⟩
    simp only at hk
    rcases assocFind_append_single c.values a k (c.calculation a) v hk with h' | h'
    · exact h.2 k v h'
    · rw [h'.2.1, h.1, h'.1]
  · exact h

theorem cacherSound_foldl {U V : Type} [DecidableEq U] {f : U → V}
    (args : List U) (c : Cacher U V) (h : CacherSound f c) :
    CacherSound f (args.foldl (fun c a => (c.value a).snd) c) := by
  induction args generalizing c with
  | nil => exact h
  | cons a rest ih => exact ih (c.value a).snd (cacherSound_value h a)

theorem cacherSound_runAll {U V : Type} [DecidableEq U] (f : U → V)
    (args : List U) : CacherSound f (Cacher.runAll f args) :=
  cacherSound_foldl args (Cacher.new f) (cacherSound_new f)

theorem cacher_value_fst {U V : Type} [DecidableEq U] {f : U → V}
    {c : Cacher U V} (h : CacherSound f c) (a : U) :
    (c.value a).fst = f a := by
  unfold Cacher.value
  rcases hf : assocFind c.values a with _ | v
  · simp only
    rw [h.1]
  · simp only
    exact h.2 a v hf

theorem cacher_value_stores {U V : Type} [DecidableEq U] {f : U → V}
    {c : Cacher U V} (h : CacherSound f c) (a : U) :
    assocFind (c.value a).snd.values a = some (f a) := by
  unfold Cacher.value
  rcases hf : assocFind c.values a with _ | v
  · simp only
    rw [h.1]
    exact assocFind_append_new c.values a (f a) hf
  · simp only
    rw [hf, h.2 a v hf]

theorem cacher_value_preserves {U V : Type} [DecidableEq U]
    (c : Cacher U V) (a : U) (k : U) (v : V)
    (hk : assocFind c.values k = some v) :
    assocFind (c.value a).snd.values k = some v := by
  unfold Cacher.value
  rcases hf : assocFind c.values a with _ | w
  · simp only
    exact assocFind_append_left c.values [(a, c.calculation a)] k v hk
  · simp only
    exact hk

/-! ## The parser never succeeds: every token retains its terminator -/
theorem chunksAux_ends (p : Nat → Bool) (acc l : List Nat) :
    ∀ c ∈ chunksAux p acc l, ∃ c0 b, c = c0 ++ [b] ∧ p b = true := by
  induction l generalizing acc with
  | nil => intro c hc; simp [chunksAux] at hc
  | cons b rest ih =>
    intro c hc
    by_cases hpb : p b
    · simp only [chunksAux, if_pos hpb] at hc
      rcases List.mem_cons.mp hc with rfl | hc'
      · exact ⟨acc, b, rfl, hpb⟩
      · exact ih [] c hc'
    · simp only [chunksAux, if_neg hpb] at hc
      exact ih (acc ++ [b]) c hc

theorem not_eq_concat_of_ws (c0 : List Nat) (b : Nat) (hb : isWs b = true)
    (v0 : List Nat) (d : Nat) (hd : isWs d = false) :
    c0 ++ [b] ≠ v0 ++ [d] := by
  intro h
  have hbd := append_one_eq_append_one c0 v0 b d h
  rw [hbd, hd] at hb
  simp at hb

/-- The version table never matches a token that ends in a whitespace
byte: all five recognized strings end in a non-whitespace byte. -/
theorem parseVersion_ws_none (c0 : List Nat) (b : Nat) (hb : isWs b = true) :
    parseVersion (c0 ++ [b]) = none := by
  have h1 : c0 ++ [b] ≠ strBytes "HTTP/0.9" := by
    rw [show strBytes "HTTP/0.9" = [72, 84, 84, 80, 47, 48, 46] ++ [57] by decide]
    exact not_eq_concat_of_ws c0 b hb _ 57 (by decide)
  have h2 : c0 ++ [b] ≠ strBytes "HTTP/1.0" := by
    rw [show strBytes "HTTP/1.0" = [72, 84, 84, 80, 47, 49, 46] ++ [48] by decide]
    exact not_eq_concat_of_ws c0 b hb _ 48 (by decide)
  have h3 : c0 ++ [b] ≠ strBytes "HTTP/1.1" := by
    rw [show strBytes "HTTP/1.1" = [72, 84, 84, 80, 47, 49, 46] ++ [49] by decide]
    exact not_eq_concat_of_ws c0 b hb _ 49 (by decide)
  have h4 : c0 ++ [b] ≠ strBytes "HTTP/2.0" := by
    rw [show strBytes "HTTP/2.0" = [72, 84, 84, 80, 47, 50, 46] ++ [48] by decide]
    exact not_eq_concat_of_ws c0 b hb _ 48 (by decide)
  have h5 : c0 ++ [b] ≠ strBytes "HTTP/3.0" := by
    rw [show strBytes "HTTP/3.0" = [72, 84, 84, 80, 47, 51, 46] ++ [48] by decide]
    exact not_eq_concat_of_ws c0 b hb _ 48 (by decide)
  unfold parseVersion
  rw [if_neg h1, if_neg h2, if_neg h3, if_neg h4, if_neg h5]

/-- With at least three tokens on the request line, `parse_request` always
reaches the version match and panics there (`unreachable!()`): the third
token carries its trailing whitespace byte and matches no version string. -/
theorem parse_request_ge3_version_panic (buf fl : List Nat)
    (rest : List (List Nat)) (t1 t2 t3 : List Nat) (ts : List (List Nat))
    (hsplit : splitLines buf = fl :: rest)
    (hchunks : chunksAux isWs [] fl = t1 :: t2 :: t3 :: ts) :
    parse_request buf = ParseResult.panicBadVersion := by
  have ht3 : ∃ c0 b, t3 = c0 ++ [b] ∧ isWs b = true := by
    apply chunksAux_ends isWs [] fl
    rw [hchunks]
    simp
  obtain ⟨c0, b, rfl, hb⟩ := ht3
  unfold parse_request
  rw [hsplit]
  dsimp only
  rw [hchunks]
  dsimp only
  rw [parseVersion_ws_none c0 b hb]

/-- With fewer than three tokens on the request line, `parse_request`
panics on the third `tokens.next().unwrap()`. -/
theorem parse_request_lt3_token_panic (buf fl : List Nat)
    (rest : List (List Nat))
    (hsplit : splitLines buf = fl :: rest)
    (hlen : (chunksAux isWs [] fl).length < 3) :
    parse_request buf = ParseResult.panicNoToken := by
  unfold parse_request
  rw [hsplit]
  dsimp only
  rcases hc : chunksAux isWs [] fl with _ | ⟨t1, _ | ⟨t2, _ | ⟨t3, ts⟩⟩⟩
  · rfl
  · rfl
  · rfl
  · rw [hc] at hlen
    simp at hlen
    omega

/-- `parse_request` never returns a request: every input panics at one of
its stages. -/
theorem parse_request_never_ok (buf : List Nat) (r : Request) :
    parse_request buf ≠ ParseResult.ok r := by
  intro h
  rcases hs : splitLines buf with _ | ⟨fl, rest⟩
  · unfold parse_request at h
    rw [hs] at h
    dsimp only at h
    simp at h
  · rcases hc : chunksAux isWs [] fl with _ | ⟨t1, _ | ⟨t2, _ | ⟨t3, ts⟩⟩⟩
    · rw [parse_request_lt3_token_panic buf fl rest hs (by rw [hc]; simp)] at h
      simp at h
    · rw [parse_request_lt3_token_panic buf fl rest hs (by rw [hc]; simp)] at h
      simp at h
    · rw [parse_request_lt3_token_panic buf fl rest hs (by rw [hc]; simp)] at h
      simp at h
    · rw [parse_request_ge3_version_panic buf fl rest t1 t2 t3 ts hs hc] at h
      simp at h

/-- Every connection task panics: the read error, the (unavoidable) parse
panic, a missing file, or a failed write all unwind the worker thread. -/
theorem connectionTask_always_panics (fs : Fs) (routes : Routes) (c : Conn) :
    connectionTask fs routes c = TaskOutcome.panicked := by
  unfold connectionTask
  rcases hr : c.readResult with _ | buf
  · rfl
  · dsimp only
    rcases hp : parse_request buf with r | _ | _ | _ | _ | _
    · exact absurd hp (parse_request_never_ok buf r)
    · rfl
    · rfl
    · rfl
    · rfl
    · rfl

theorem poolW1_reach : Relation.ReflTransGen Step (ThreadPool.init 1) poolW1 :=
  Relation.ReflTransGen.single (Step.execute (ThreadPool.init 1))

theorem poolT0_to_U1 : WStep (ThreadPool.dropSends poolW1) poolU1 :=
  WStep.dequeueJob (ThreadPool.dropSends poolW1) 0 (Worker.new 0) 0
    [Message.terminate] rfl rfl rfl

theorem poolU1_to_U2 : WStep poolU1 poolU2 :=
  WStep.finishJob poolU1 0 { id := 0, status := WStatus.running 0 } 0 rfl rfl

theorem poolU2_to_U3 : WStep poolU2 poolU3 :=
  WStep.dequeueTerm poolU2 0 { id := 0, status := WStatus.idle }
    [] rfl rfl rfl

theorem poolU3_drain :
    Relation.ReflTransGen WStep (ThreadPool.dropSends poolW1) poolU3 :=
  Relation.ReflTransGen.head poolT0_to_U1
    (Relation.ReflTransGen.head poolU1_to_U2
      (Relation.ReflTransGen.single poolU2_to_U3))

/-! ## The claims -/
/-- Claim C1: in every reachable state of a live pool, each submitted task
has been delivered to at most one worker and executed at most as often as
delivered, and is otherwise still in the queue — exactly one of the two,
never dropped and never duplicated; and on any complete shutdown drain
every submitted task ends up executed exactly once, for any number of
submissions relative to the pool size. -/
theorem c1_task_exactly_once (n : Nat) (hn : 1 ≤ n) (s : ThreadPool)
    (hs : Relation.ReflTransGen Step (ThreadPool.init n) s) :
    (∀ i, cntNat i s.delivered ≤ 1 ∧ cntNat i s.executed ≤ cntNat i s.delivered) ∧
    (∀ i ∈ s.submitted, countJobs i s.queue + cntNat i s.delivered = 1) ∧
    (∀ u, Relation.ReflTransGen WStep (ThreadPool.dropSends s) u →
      allDone u.workers → ∀ i ∈ s.submitted, cntNat i u.executed = 1) := by
  have hinv := pool_inv_reach hs
  refine ⟨?_, ?_, ?_⟩
  · intro i
    have hb := hinv.balance i
    have hd := hinv.deliv i
    have hsub : cntNat i s.submitted ≤ 1 := by
      rw [hinv.sub, cntNat_range]
      by_cases h : i < s.nextId <;> simp [h]
    exact ⟨by omega, by omega⟩
  · intro i hi
    have hb := hinv.balance i
    have hsub : cntNat i s.submitted = 1 := by
      rw [hinv.sub] at hi ⊢
      rw [cntNat_range, if_pos (List.mem_range.mp hi)]
    omega
  · intro u hu hdone
    exact drain_executed hn hinv hu hdone

/-- Witness for C1: the one-worker pool with one submitted task, traced
through submission and a full drain. -/
theorem c1_task_exactly_once_witness :
    cntNat 0 poolW1.delivered ≤ 1 ∧
    countJobs 0 poolW1.queue + cntNat 0 poolW1.delivered = 1 ∧
    cntNat 0 poolU3.executed = 1 := by
  have h := c1_task_exactly_once 1 (by decide) poolW1 poolW1_reach
  exact ⟨(h.1 0).1, h.2.1 0 (by decide),
    h.2.2 poolU3 poolU3_drain (by decide) 0 (by decide)⟩

/-- Claim C2: `Drop for ThreadPool` enqueues exactly one terminate message
per worker, necessarily behind all previously submitted tasks in the FIFO
channel; and when the join loop returns (all workers have exited), every
task submitted before shutdown has been executed exactly once. -/
theorem c2_shutdown_drains (n : Nat) (hn : 1 ≤ n) (s u : ThreadPool)
    (hs : Relation.ReflTransGen Step (ThreadPool.init n) s)
    (hu : Relation.ReflTransGen WStep (ThreadPool.dropSends s) u)
    (hdone : allDone u.workers) :
    (ThreadPool.dropSends s).queue
      = s.queue ++ List.replicate n Message.terminate ∧
    (∀ i ∈ s.submitted, cntNat i u.executed = 1) := by
  have hinv := pool_inv_reach hs
  constructor
  · show s.queue ++ List.replicate s.workers.length Message.terminate = _
    rw [hinv.wlen]
  · exact drain_executed hn hinv hu hdone

/-- Witness for C2: the one-worker pool, drained to completion. -/
theorem c2_shutdown_drains_witness :
    (ThreadPool.dropSends poolW1).queue
      = poolW1.queue ++ List.replicate 1 Message.terminate ∧
    cntNat 0 poolU3.executed = 1 := by
  have h := c2_shutdown_drains 1 (by decide) poolW1 poolU3 poolW1_reach
    poolU3_drain (by decide)
  exact ⟨h.1, h.2 0 (by decide)⟩

/-- Claim C3: `ThreadPool::new(n)` succeeds with exactly `n` workers for
every `n` at least 1, and fails with `PoolCreationError` for `n = 0`. -/
theorem c3_pool_creation (n : Nat) (hn : 1 ≤ n) :
    (∃ p, ThreadPool.new n = Except.ok p ∧ p.workers.length = n) ∧
    ThreadPool.new 0 = Except.error PoolCreationError.mk := by
  constructor
  · match n, hn with
    | m + 1, _ =>
      refine ⟨ThreadPool.init (m + 1), rfl, ?_⟩
      simp [ThreadPool.init]
  · rfl

/-- Witness for C3 at `n = 4`, the pool size used by the server binary. -/
theorem c3_pool_creation_witness :
    (∃ p, ThreadPool.new 4 = Except.ok p ∧ p.workers.length = 4) ∧
    ThreadPool.new 0 = Except.error PoolCreationError.mk :=
  c3_pool_creation 4 (by decide)

/-- Claim C4: for a parsed GET or POST request, a path present in the
route table yields status 200 with the mapped file's contents, and an
absent path yields status 404 with the contents of the fixed fallback
file `404.html` (provided the respective file exists on disk). -/
theorem c4_get_post_routing (fs : Fs) (routes : Routes) (req : Request)
    (hm : req.method = Method.GET ∨ req.method = Method.POST) :
    (∀ file body, routesGet routes req.uri = some file → fs file = some body →
      response fs routes req = RespResult.ok (Response.build 200 body)) ∧
    (∀ body, routesGet routes req.uri = none → fs "404.html" = some body →
      response fs routes req = RespResult.ok (Response.build 404 body)) := by
  constructor
  · intro file body hroute hfs
    rcases hm with h | h <;> simp [response, h, hroute, hfs]
  · intro body hroute hfs
    rcases hm with h | h <;> simp [response, h, hroute, hfs]

/-- Witness for C4: the spec's two examples — GET `/` with the route table
mapping `/` to `hello.html`, and POST `/missing` falling back to `404.html`. -/
theorem c4_get_post_routing_witness :
    response fsDemo routesDemo (reqDemo Method.GET "/")
      = RespResult.ok (Response.build 200 "<html>Hi</html>") ∧
    response fsDemo routesDemo (reqDemo Method.POST "/missing")
      = RespResult.ok (Response.build 404 "Not Found") := by
  constructor
  · exact (c4_get_post_routing fsDemo routesDemo (reqDemo Method.GET "/")
      (Or.inl rfl)).1 "hello.html" "<html>Hi</html>" (by decide) (by decide)
  · exact (c4_get_post_routing fsDemo routesDemo (reqDemo Method.POST "/missing")
      (Or.inr rfl)).2 "Not Found" (by decide) (by decide)

/-- Counterexample for C5: the claim says a parse failure is contained in
its connection and never terminates a worker thread.  In the source the
task closure is `|| handle_connection(..).unwrap()`, so the parse panic on
this concrete request (in fact on every request, see
`c5_failures_panic_worker`) unwinds and kills the executing worker thread:
the outcome is `panicked`, not a contained failure. -/
theorem c5_counterexample :
    connectionTask fsDemo routesDemo
      { readResult := some (strBytes "GET / HTTP/1.1\r\n"),
        writeOk := true, flushOk := true }
      = TaskOutcome.panicked := by decide

/-- Claim C5 (amended): per-connection failures are not contained — every
failure (read error, parse panic, missing mapped or fallback file, write
or flush error) panics the connection task, and the panic unwinds the
worker thread executing it, terminating that thread.  Indeed every
connection task panics, because `parse_request` panics on every input. -/
theorem c5_failures_panic_worker (fs : Fs) (routes : Routes) (c : Conn) :
    connectionTask fs routes c = TaskOutcome.panicked :=
  connectionTask_always_panics fs routes c

/-- Witness for C5 (amended) at a failed socket read. -/
theorem c5_failures_panic_worker_witness :
    connectionTask fsDemo routesDemo
      { readResult := none, writeOk := true, flushOk := true }
      = TaskOutcome.panicked :=
  c5_failures_panic_worker fsDemo routesDemo
    { readResult := none, writeOk := true, flushOk := true }

/-- Counterexample for C6: the claim says a request line that does not
split into exactly three whitespace tokens is rejected with a
`MalformedRequestLineError` rather than causing a crash.  No such error
type exists in the source: `"GET /\n"` (two tokens) panics on the third
`tokens.next().unwrap()`, and the spec's own example `"GET /\r\n"` is not
rejected for its token count at all — the `\r` counts as a separator, three
token matches exist, and the input panics at the version match instead.
Both outcomes are panics that abort the task, not parse failures. -/
theorem c6_counterexample :
    parse_request (strBytes "GET /\n") = ParseResult.panicNoToken ∧
    parse_request (strBytes "GET /\r\n") = ParseResult.panicBadVersion := by
  constructor
  · decide
  · decide

/-- Claim C6 (amended): a request line with fewer than three
whitespace-terminated token matches makes `parse_request` panic on a
failed `unwrap` (aborting the connection task); there is no
`MalformedRequestLineError`.  A line with three or more token matches is
never rejected for its token count — the extra tokens are ignored. -/
theorem c6_short_request_line_panics (buf fl : List Nat)
    (rest : List (List Nat))
    (hsplit : splitLines buf = fl :: rest) :
    ((chunksAux isWs [] fl).length < 3 →
      parse_request buf = ParseResult.panicNoToken) ∧
    (3 ≤ (chunksAux isWs [] fl).length →
      parse_request buf ≠ ParseResult.panicNoToken) := by
  constructor
  · exact parse_request_lt3_token_panic buf fl rest hsplit
  · intro hlen
    rcases hc : chunksAux isWs [] fl with _ | ⟨t1, _ | ⟨t2, _ | ⟨t3, ts⟩⟩⟩
    · rw [hc] at hlen; simp at hlen
    · rw [hc] at hlen; simp at hlen
    · rw [hc] at hlen; simp at hlen
    · rw [parse_request_ge3_version_panic buf fl rest t1 t2 t3 ts hsplit hc]
      simp

/-- Witness for C6 (amended): `"GET /\n"` has two token matches and panics
on the missing third token; `"GET / HTTP/9.9\r\n"` has four and is not
rejected for its token count. -/
theorem c6_short_request_line_panics_witness :
    parse_request (strBytes "GET /\n") = ParseResult.panicNoToken ∧
    parse_request (strBytes "GET / HTTP/9.9\r\n") ≠ ParseResult.panicNoToken := by
  constructor
  · exact (c6_short_request_line_panics (strBytes "GET /\n")
      (strBytes "GET /\n") [] (by decide)).1 (by decide)
  · exact (c6_short_request_line_panics (strBytes "GET / HTTP/9.9\r\n")
      (strBytes "GET / HTTP/9.9\r\n") [] (by decide)).2 (by decide)

/-- Counterexample for C7: the claim says an unrecognized version token
yields an `UnsupportedVersionError` rather than any other outcome.  No
such error type exists: on this request with version `HTTP/9.9` the
`unreachable!()` arm panics and the task crashes (`panicBadVersion` is a
panic, not an error return). -/
theorem c7_counterexample :
    parse_request (strBytes "GET / HTTP/9.9\r\n") = ParseResult.panicBadVersion ∧
    isParsePanic (parse_request (strBytes "GET / HTTP/9.9\r\n")) = true := by
  constructor
  · decide
  · decide

/-- Claim C7 (amended): whenever the request line yields at least three
token matches, `parse_request` panics at the version match via
`unreachable!()` — for unrecognized versions, and in fact for every input,
because the `(.*?)\s` token regex keeps the trailing whitespace byte in
the token, so not even `HTTP/1.1` can match a recognized version string. -/
theorem c7_version_match_panics (buf fl : List Nat) (rest : List (List Nat))
    (t1 t2 t3 : List Nat) (ts : List (List Nat))
    (hsplit : splitLines buf = fl :: rest)
    (hchunks : chunksAux isWs [] fl = t1 :: t2 :: t3 :: ts) :
    parse_request buf = ParseResult.panicBadVersion :=
  parse_request_ge3_version_panic buf fl rest t1 t2 t3 ts hsplit hchunks

/-- Witness for C7 (amended): even the well-formed `"GET / HTTP/1.1\r\n"`
panics at the version match, because the extracted version token is
`"HTTP/1.1\r"`. -/
theorem c7_version_match_panics_witness :
    parse_request (strBytes "GET / HTTP/1.1\r\n") = ParseResult.panicBadVersion :=
  c7_version_match_panics (strBytes "GET / HTTP/1.1\r\n")
    (strBytes "GET / HTTP/1.1\r\n") []
    (strBytes "GET ") (strBytes "/ ") (strBytes "HTTP/1.1\r") [strBytes "\n"]
    (by decide) (by decide)

/-- Claim C8: HEAD and OPTIONS requests get status 501 with a body naming
the unsupported method, regardless of path and route table; every method
other than GET, POST, HEAD and OPTIONS gets status 405 with a body naming
the disallowed method, even for a registered path (the route table is
universally quantified and never consulted in these branches). -/
theorem c8_method_gating (fs : Fs) (routes : Routes) (req : Request) :
    ((req.method = Method.HEAD ∨ req.method = Method.OPTIONS) →
      response fs routes req = RespResult.ok (Response.build 501
        ("Server does not support " ++ methodStr req.method ++ " requests"))) ∧
    ((req.method ≠ Method.GET ∧ req.method ≠ Method.POST ∧
      req.method ≠ Method.HEAD ∧ req.method ≠ Method.OPTIONS) →
      response fs routes req = RespResult.ok (Response.build 405
        ("Server does not allow " ++ methodStr req.method ++ " requests"))) := by
  constructor
  · rintro (h | h) <;> simp [response, h]
  · rintro ⟨h1, h2, h3, h4⟩
    rcases hm : req.method with _ | _ | _ | _ | _ | _ | _ | _ | _ | bs
    · exact absurd hm h1
    · exact absurd hm h2
    all_goals try (exact absurd hm h3)
    all_goals try (exact absurd hm h4)
    all_goals simp [response, hm]

/-- Witness for C8: a HEAD and a DELETE request to the registered path `/`. -/
theorem c8_method_gating_witness :
    response fsDemo routesDemo (reqDemo Method.HEAD "/")
      = RespResult.ok (Response.build 501 "Server does not support HEAD requests") ∧
    response fsDemo routesDemo (reqDemo Method.DELETE "/")
      = RespResult.ok (Response.build 405 "Server does not allow DELETE requests") := by
  constructor
  · exact (c8_method_gating fsDemo routesDemo (reqDemo Method.HEAD "/")).1
      (Or.inl rfl)
  · exact (c8_method_gating fsDemo routesDemo (reqDemo Method.DELETE "/")).2
      ⟨by decide, by decide, by decide, by decide⟩

/-- Claim C9: for every response the resolver produces, the connection
handler serializes exactly `VERSION STATUS\r\n\r\nBODY` — the version's
debug form, a space, the status line, one blank line, then the body; the
part before the blank line contains no carriage return or line feed, so no
header line (in particular no content-length) is emitted. -/
theorem c9_wire_format (fs : Fs) (routes : Routes) (req : Request)
    (r : Response) (h : response fs routes req = RespResult.ok r) :
    serializeResponse r = statusHead r ++ "\r\n\r\n" ++ r.body ∧
    crlfFree (statusHead r) = true := by
  refine ⟨rfl, ?_⟩
  unfold response at h
  split at h
  all_goals try split at h
  all_goals try split at h
  all_goals
    first
      | (simp only [RespResult.ok.injEq] at h; rw [← h]; rfl)
      | simp at h

/-- Witness for C9 at the 200 response of the spec's GET example. -/
theorem c9_wire_format_witness :
    serializeResponse (Response.build 200 "<html>Hi</html>")
      = statusHead (Response.build 200 "<html>Hi</html>") ++ "\r\n\r\n"
        ++ (Response.build 200 "<html>Hi</html>").body ∧
    crlfFree (statusHead (Response.build 200 "<html>Hi</html>")) = true :=
  c9_wire_format fsDemo routesDemo (reqDemo Method.GET "/")
    (Response.build 200 "<html>Hi</html>") (by decide)

/-- Claim C10: for a cacher built from `f` by `new` and any sequence of
`value` calls, `value(a)` returns `f a` and leaves `a` present in the map;
entries present before the call are never overwritten, and a second call
with the same argument returns the value stored by the first. -/
theorem c10_cacher_memoization (U V : Type) [DecidableEq U]
    (f : U → V) (args : List U) (a : U) :
    ((Cacher.runAll f args).value a).fst = f a ∧
    assocFind ((Cacher.runAll f args).value a).snd.values a = some (f a) ∧
    (∀ k v, assocFind (Cacher.runAll f args).values k = some v →
      assocFind ((Cacher.runAll f args).value a).snd.values k = some v) ∧
    (((Cacher.runAll f args).value a).snd.value a).fst
      = ((Cacher.runAll f args).value a).fst := by
  have hs := cacherSound_runAll f args
  have hs' := cacherSound_value hs a
  refine ⟨cacher_value_fst hs a, cacher_value_stores hs a,
    fun k v hk => cacher_value_preserves _ a k v hk, ?_⟩
  rw [cacher_value_fst hs' a, cacher_value_fst hs a]

/-- Witness for C10 on the successor function over the naturals. -/
theorem c10_cacher_memoization_witness :
    ((Cacher.runAll (fun x : Nat => x + 1) [1, 2]).value 1).fst = 2 ∧
    assocFind ((Cacher.runAll (fun x : Nat => x + 1) [1, 2]).value 1).snd.values 1
      = some 2 := by
  have h := c10_cacher_memoization Nat Nat (fun x => x + 1) [1, 2] 1
  exact ⟨h.1, h.2.1⟩
